import Mathlib

/-!
Shallow embedding of the glibc heap introspection code: the doubly-linked
bin walk of `BinParser._parse_from_bin_entry`, the tcache-detection and
tcache accessors of `HeapExplorer`, and the arena-ring enumeration behind
`arenas_count` / `all_arenas_malloc_states` / `malloc_state`.

Addresses and machine words are Python unbounded integers, embedded as
`Int`.  The external `MallocChunkParser.parse_from_address` oracle (which
reads raw memory and may fail with `OSError`) is embedded as a function
`Int → Option MallocChunk`, `none` standing for a read failure.  Loops of
the source are embedded with an explicit fuel argument together with a
`finished` flag recording that the loop exited through its own condition
rather than by fuel exhaustion; a termination theorem shows the flag is
reached for every memory image with word-bounded pointers.
-/

/-- Chunk record of the data model (spec section 3), restricted to the
fields that the free-list walks consume: the raw forward pointer `fd`,
its safe-link demangled companion `fd_demangled`, and bookkeeping
fields. -/
structure MallocChunk where
  address : Int
  size : Int
  fd : Int
  bk : Int
  fd_demangled : Int
  deriving DecidableEq

/-- Bin entry as in `pwnlib/heap/glmalloc/bins/bin.py` (`BinEntry`):
address of the entry, `fd`/`bk` pointers and nominal chunk size. -/
structure BinEntry where
  address : Int
  fd : Int
  bk : Int := 0
  chunks_size : Int := 0
  deriving DecidableEq

/-- Bin as in `pwnlib/heap/glmalloc/bins/bin.py` (`Bin.__init__`): the
entry, the ordered parsed chunks, and the `safe_link` flag whose default
is `False`. -/
structure Bin where
  bin_entry : BinEntry
  malloc_chunks : List MallocChunk
  safe_link : Bool := false
  deriving DecidableEq

/-- Modelled from the spec: `BinFactory.create` (not under `src/`) builds
the `UnsortedBin`/`SmallBin`/`LargeBin` object from the entry and the
chunk list.  Per the spec, doubly-linked bins are "not safe-linked" and
implementations "must not apply" safe-linking to them, so the `Bin` is
built with the default `safe_link := false` of `Bin.__init__`. -/
def binFactoryCreate (bin_entry : BinEntry) (chunks : List MallocChunk) : Bin :=
  { bin_entry := bin_entry, malloc_chunks := chunks, safe_link := false }

/-- State returned by the embedded bin-walk loop: the chunks collected,
the code's `addresses` visited list (sentinel first, then every address
at which a chunk parse was attempted, in order), and whether the loop
exited through its own condition (`finished = true`) as opposed to fuel
exhaustion. -/
structure BinWalkState where
  chunks : List MallocChunk
  addresses : List Int
  finished : Bool
  deriving DecidableEq

/-- The `while current_address not in addresses` loop of
`BinParser._parse_from_bin_entry` (bin_parser.py lines 70-80): append the
current address to the visited list, try to parse a chunk there; on a
read failure (`OSError`) break; otherwise append the chunk and advance to
its raw `fd`. -/
def parseFromBinEntryAux (parse : Int → Option MallocChunk) :
    Nat → List Int → Int → List MallocChunk → BinWalkState
  | 0, addresses, _, chunks => ⟨chunks, addresses, false⟩
  | fuel + 1, addresses, current_address, chunks =>
    if current_address ∈ addresses then ⟨chunks, addresses, true⟩
    else
      match parse current_address with
      | some chunk =>
          parseFromBinEntryAux parse fuel (addresses ++ [current_address])
            chunk.fd (chunks ++ [chunk])
      | none => ⟨chunks, addresses ++ [current_address], true⟩

/-- Result of `BinParser._parse_from_bin_entry`: the created `Bin`
together with the walk bookkeeping. -/
structure BinParseResult where
  bin : Bin
  addresses : List Int
  finished : Bool
  deriving DecidableEq

/-- `BinParser._parse_from_bin_entry` (bin_parser.py lines 65-82):
seed the visited list with `base_bin_address = bin_entry.address -
pointer_size * 2`, start from `bin_entry.fd`, run the walk and create the
bin from the collected chunks. -/
def parseFromBinEntry (parse : Int → Option MallocChunk) (pointer_size : Int)
    (fuel : Nat) (bin_entry : BinEntry) : BinParseResult :=
  let base_bin_address := bin_entry.address - pointer_size * 2
  let w := parseFromBinEntryAux parse fuel [base_bin_address] bin_entry.fd []
  ⟨binFactoryCreate bin_entry w.chunks, w.addresses, w.finished⟩

/-- The addresses at which a chunk parse was attempted, in walk order:
the visited list minus its sentinel head. -/
def BinParseResult.attempts (r : BinParseResult) : List Int :=
  r.addresses.tail

/-- Modelled from the spec: `ProcessInformer.is_libc_version_lower_than`
(the informer is not under `src/`); per the spec it is derivable from
`libc_version` by lexicographic comparison of `(major, minor)`. -/
def is_libc_version_lower_than (version other : Nat × Nat) : Bool :=
  decide (version.1 < other.1 ∨ (version.1 = other.1 ∧ version.2 < other.2))

/-- `HeapExplorer._are_tcaches_enabled` (heap_explorer.py lines 89-94):
`False` when the libc version is lower than `(2, 26)`; otherwise compare
`pointer_size * 64 + 0x50` with the size of the first chunk of the heap
(the result of `self.heap().chunks[0].size`, taken here as an input). -/
def are_tcaches_enabled (version : Nat × Nat) (pointer_size : Int)
    (first_chunk_size : Int) : Bool :=
  if is_libc_version_lower_than version (2, 26) then false
  else decide (pointer_size * 64 + 0x50 = first_chunk_size)

/-- Outcome of a façade call that can raise `NoTcacheError`. -/
inductive TcachesOutcome (α : Type) where
  | noTcacheError : TcachesOutcome α
  | ok : α → TcachesOutcome α
  deriving DecidableEq

/-- `HeapExplorer.tcaches` (heap_explorer.py lines 489-519): raise
`NoTcacheError` when tcaches are disabled, before any further work;
otherwise run the tcache parser on the selected arena.  The parser
(absent from `src/`) is abstracted as `parse_result`, returning its value
together with the list of addresses it reads. -/
def tcaches (α : Type) (tcaches_enabled : Bool)
    (parse_result : Nat → α × List Int) (arena_index : Nat) :
    TcachesOutcome α × List Int :=
  if ¬tcaches_enabled then (TcachesOutcome.noTcacheError, [])
  else (TcachesOutcome.ok (parse_result arena_index).1, (parse_result arena_index).2)

/-- `HeapExplorer.all_arenas_tcaches` (heap_explorer.py lines 521-548):
same guard, then the tcache parser over every arena. -/
def all_arenas_tcaches (α : Type) (tcaches_enabled : Bool)
    (parse_results : Unit → α × List Int) :
    TcachesOutcome α × List Int :=
  if ¬tcaches_enabled then (TcachesOutcome.noTcacheError, [])
  else (TcachesOutcome.ok (parse_results ()).1, (parse_results ()).2)

/-- Malloc state restricted to the fields the ring enumeration uses: its
own address and the `next` pointer of the arena ring. -/
structure MallocState where
  address : Int
  next : Int
  deriving DecidableEq

/-- Modelled from the spec:
`MallocStateParser.parse_all_from_main_malloc_state_address` (not under
`src/`) "walks the `next` ring starting at `main_address`, emitting each
`MallocState` exactly once.  Termination: a `next` that has already been
observed" (deduplicated by the observed set).  Reads are assumed to
succeed; `readNext` gives the `next` word of the state at an address. -/
def parseAllFromMainAux (readNext : Int → Int) :
    Nat → List Int → Int → List MallocState
  | 0, _, _ => []
  | fuel + 1, observed, current =>
    if current ∈ observed then []
    else
      { address := current, next := readNext current } ::
        parseAllFromMainAux readNext fuel (observed ++ [current]) (readNext current)

/-- `HeapExplorer.all_arenas_malloc_states` (heap_explorer.py lines
175-190): delegate to the ring enumeration starting at the main arena
address. -/
def all_arenas_malloc_states (readNext : Int → Int) (fuel : Nat)
    (main_arena_address : Int) : List MallocState :=
  parseAllFromMainAux readNext fuel [] main_arena_address

/-- `HeapExplorer.arenas_count` (heap_explorer.py lines 96-109):
`len(self.all_arenas_malloc_states())`. -/
def arenas_count (readNext : Int → Int) (fuel : Nat)
    (main_arena_address : Int) : Nat :=
  (all_arenas_malloc_states readNext fuel main_arena_address).length

/-- Python list indexing `l[i]`: a non-negative index selects from the
front and fails (`IndexError`, embedded as `none`) when it is at least
`len(l)`; a negative index selects position `len(l) + i` and fails when
that is still negative. -/
def pyListGet {α : Type} (l : List α) (i : Int) : Option α :=
  if 0 ≤ i then l.get? i.toNat
  else if i.natAbs ≤ l.length then l.get? (l.length - i.natAbs)
  else none

/-- `HeapExplorer.malloc_state` (heap_explorer.py lines 111-173):
`self.all_arenas_malloc_states()[arena_index]`, with Python indexing;
`none` embeds `IndexError`. -/
def malloc_state (readNext : Int → Int) (fuel : Nat)
    (main_arena_address : Int) (arena_index : Int) : Option MallocState :=
  pyListGet (all_arenas_malloc_states readNext fuel main_arena_address) arena_index

/-! Concrete fixtures used by counterexamples and witnesses. -/

/-- Memory with no readable chunk at all: every read fails. -/
def parseNone : Int → Option MallocChunk := fun _ => none

/-- Counterexample memory for the one-chunk scenario: the chunk at
`0xC000` has `fd = 0xB000` (the bin entry address), and the address
`0xB000` is itself readable as a chunk whose `fd` points back to
`0xC000`. -/
def parseC1ce : Int → Option MallocChunk := fun a =>
  if a = 0xC000 then some ⟨0xC000, 0x91, 0xB000, 0, 0⟩
  else if a = 0xB000 then some ⟨0xB000, 0x21, 0xC000, 0, 0⟩
  else none

/-- Bin entry of the counterexample: entry at `0xB000` with
`fd = 0xC000`. -/
def entryC1ce : BinEntry := ⟨0xB000, 0xC000, 0, 0⟩

/-- One-chunk memory for the amended scenario: the chunk at `0xC000` has
`fd` equal to the sentinel `0x1010 - 2*8 = 0x1000`. -/
def chunkC1w : MallocChunk := ⟨0xC000, 0x91, 0x1000, 0x1010, 0⟩

/-- Memory for the amended one-chunk scenario. -/
def parseC1w : Int → Option MallocChunk := fun a =>
  if a = 0xC000 then some chunkC1w else none

/-- Bin entry at `0x1010` with `fd = 0xC000` for the amended one-chunk
scenario. -/
def entryC1w : BinEntry := ⟨0x1010, 0xC000, 0, 0⟩

/-- Bin entry whose `fd` is an unreadable address, for the termination
witness. -/
def entryC2w : BinEntry := ⟨0x1010, 0x40, 0, 0⟩

/-- Chunk at `0x100` whose `fd` points to the unreadable `0x200`. -/
def chunkC3w : MallocChunk := ⟨0x100, 0x21, 0x200, 0, 0⟩

/-- Memory where exactly one chunk is readable and its successor read
fails, for the prefix-on-failure witness. -/
def parseC3w : Int → Option MallocChunk := fun a =>
  if a = 0x100 then some chunkC3w else none

/-- Bin entry at `0x1010` with `fd = 0x100` for the prefix-on-failure
witness. -/
def entryC3w : BinEntry := ⟨0x1010, 0x100, 0, 0⟩

/-- Bin entry whose `fd` already equals the sentinel
`0x1010 - 2*8 = 0x1000`: an empty bin. -/
def entryC4w : BinEntry := ⟨0x1010, 0x1000, 0, 0⟩

/-- Two-arena ring: the state at `0x10` has `next = 0x20` and the state
at `0x20` has `next = 0x10`. -/
def ringTwo : Int → Int := fun a =>
  if a = 0x10 then 0x20 else if a = 0x20 then 0x10 else 0

/-- Self-ring: `main_arena.next == main_arena` at `0x30`. -/
def ringOne : Int → Int := fun _ => 0x30

/-! Helper lemmas about the bin walk. -/

/-- A list of keys on which a partial function is everywhere defined
contributes one output per key under `filterMap`. -/
theorem length_filterMap_of_isSome {α β : Type} (f : α → Option β) :
    ∀ l : List α, (∀ a ∈ l, (f a).isSome = true) →
      (l.filterMap f).length = l.length := by
  intro l
  induction l with
  | nil => intro _; rfl
  | cons a l ih =>
    intro h
    have ha : (f a).isSome = true := h a (List.mem_cons_self a l)
    obtain ⟨b, hb⟩ := Option.isSome_iff_exists.mp ha
    have hl := ih (fun x hx => h x (List.mem_cons_of_mem a hx))
    simp [List.filterMap_cons, hb, hl]

/-- Characterization of the bin-walk loop: the final visited list extends
the initial one by a block `t` of attempted addresses; the collected
chunks are the successful parses of `t` in order; every attempt but the
last succeeds; a failing last attempt means the loop exited through its
`break`; consecutive attempts are linked by the raw `fd` pointer; and the
first attempt is the starting address. -/
theorem parseFromBinEntryAux_spec (parse : Int → Option MallocChunk) :
    ∀ (fuel : Nat) (addresses : List Int) (current : Int)
      (chunks : List MallocChunk),
    ∃ t : List Int,
      (parseFromBinEntryAux parse fuel addresses current chunks).addresses
        = addresses ++ t ∧
      (parseFromBinEntryAux parse fuel addresses current chunks).chunks
        = chunks ++ t.filterMap parse ∧
      (∀ a ∈ t.dropLast, (parse a).isSome = true) ∧
      (∀ a, t.getLast? = some a → parse a = none →
        (parseFromBinEntryAux parse fuel addresses current chunks).finished
          = true) ∧
      List.Chain' (fun a b => ∃ c, parse a = some c ∧ b = c.fd) t ∧
      (∀ a, t.head? = some a → a = current) := by
  intro fuel
  induction fuel with
  | zero =>
    intro addresses current chunks
    refine ⟨[], by simp [parseFromBinEntryAux], by simp [parseFromBinEntryAux],
      by simp, by simp, by simp, by simp⟩
  | succ n ih =>
    intro addresses current chunks
    by_cases hmem : current ∈ addresses
    · refine ⟨[], by simp [parseFromBinEntryAux, hmem],
        by simp [parseFromBinEntryAux, hmem], by simp, by simp, by simp, by simp⟩
    · cases hp : parse current with
      | some chunk =>
        have hstep :
            parseFromBinEntryAux parse (n + 1) addresses current chunks
              = parseFromBinEntryAux parse n (addresses ++ [current])
                  chunk.fd (chunks ++ [chunk]) := by
          simp [parseFromBinEntryAux, hmem, hp]
        obtain ⟨t, h1, h2, h3, h4, h5, h6⟩ :=
          ih (addresses ++ [current]) chunk.fd (chunks ++ [chunk])
        rcases List.eq_nil_or_concat t with rfl | ⟨t2, b, rfl⟩
        · refine ⟨[current], ?_, ?_, by simp, ?_, by simp, ?_⟩
          · rw [hstep, h1]; simp
          · rw [hstep, h2]; simp [List.filterMap_cons, hp]
          · intro a ha hnone
            have hca : current = a := by simpa using ha
            rw [← hca] at hnone
            rw [hnone] at hp
            exact Option.noConfusion hp
          · intro a ha
            have hca : current = a := by simpa using ha
            exact hca.symm
        · rw [List.concat_eq_append] at h1 h2 h3 h4 h5 h6
          refine ⟨current :: (t2 ++ [b]), ?_, ?_, ?_, ?_, ?_, ?_⟩
          · rw [hstep, h1]; simp
          · rw [hstep, h2]; simp [List.filterMap_cons, hp]
          · intro a ha
            rw [show current :: (t2 ++ [b]) = (current :: t2) ++ [b] by simp,
              List.dropLast_concat] at ha
            rcases List.mem_cons.mp ha with rfl | ha2
            · simp [hp]
            · exact h3 a (by rw [List.dropLast_concat]; exact ha2)
          · intro a ha hnone
            rw [hstep]
            rw [show current :: (t2 ++ [b]) = (current :: t2) ++ [b] by simp,
              List.getLast?_concat] at ha
            refine h4 a ?_ hnone
            rw [List.getLast?_concat]
            exact ha
          · refine List.chain'_cons'.mpr ⟨?_, h5⟩
            intro y hy
            exact ⟨chunk, hp, h6 y hy⟩
          · intro a ha
            have hca : current = a := by simpa using ha
            exact hca.symm
      | none =>
        refine ⟨[current], ?_, ?_, by simp, ?_, by simp, ?_⟩
        · simp [parseFromBinEntryAux, hmem, hp]
        · simp [parseFromBinEntryAux, hmem, hp, List.filterMap_cons]
        · intro _ _ _; simp [parseFromBinEntryAux, hmem, hp]
        · intro a ha
          have hca : current = a := by simpa using ha
          exact hca.symm

/-- The walk never revisits an address: the visited list stays without
duplicates. -/
theorem parseFromBinEntryAux_nodup (parse : Int → Option MallocChunk) :
    ∀ (fuel : Nat) (addresses : List Int) (current : Int)
      (chunks : List MallocChunk),
    addresses.Nodup →
    ((parseFromBinEntryAux parse fuel addresses current chunks).addresses).Nodup := by
  intro fuel
  induction fuel with
  | zero => intro addresses current chunks h; simpa [parseFromBinEntryAux] using h
  | succ n ih =>
    intro addresses current chunks h
    by_cases hmem : current ∈ addresses
    · simpa [parseFromBinEntryAux, hmem] using h
    · have hsnoc : (addresses ++ [current]).Nodup := by
        simp [List.nodup_append, h, hmem]
      cases hp : parse current with
      | some chunk =>
        have hstep :
            parseFromBinEntryAux parse (n + 1) addresses current chunks
              = parseFromBinEntryAux parse n (addresses ++ [current])
                  chunk.fd (chunks ++ [chunk]) := by
          simp [parseFromBinEntryAux, hmem, hp]
        rw [hstep]
        exact ih (addresses ++ [current]) chunk.fd (chunks ++ [chunk]) hsnoc
      | none =>
        simpa [parseFromBinEntryAux, hmem, hp] using hsnoc

/-- Termination of the walk: when every readable chunk's `fd` lies in a
finite set `S` that also contains the visited addresses and the current
one (for a real memory image, the set of machine words), the loop exits
through its own condition as soon as the fuel covers the at most
`S.card` further iterations. -/
theorem parseFromBinEntryAux_finished (parse : Int → Option MallocChunk)
    (S : Finset Int) (hS : ∀ a c, parse a = some c → c.fd ∈ S) :
    ∀ (fuel : Nat) (addresses : List Int) (current : Int)
      (chunks : List MallocChunk),
    addresses.Nodup → (∀ x ∈ addresses, x ∈ S) → current ∈ S →
    S.card + 1 ≤ fuel + addresses.length →
    (parseFromBinEntryAux parse fuel addresses current chunks).finished = true := by
  intro fuel
  induction fuel with
  | zero =>
    intro addresses current chunks hnd hsub _ hfuel
    exfalso
    have hcard : addresses.toFinset.card = addresses.length :=
      List.toFinset_card_of_nodup hnd
    have hle : addresses.toFinset.card ≤ S.card :=
      Finset.card_le_card (fun x hx => hsub x (List.mem_toFinset.mp hx))
    omega
  | succ n ih =>
    intro addresses current chunks hnd hsub hcur hfuel
    by_cases hmem : current ∈ addresses
    · simp [parseFromBinEntryAux, hmem]
    · have hsnoc : (addresses ++ [current]).Nodup := by
        simp [List.nodup_append, hnd, hmem]
      cases hp : parse current with
      | some chunk =>
        have hstep :
            parseFromBinEntryAux parse (n + 1) addresses current chunks
              = parseFromBinEntryAux parse n (addresses ++ [current])
                  chunk.fd (chunks ++ [chunk]) := by
          simp [parseFromBinEntryAux, hmem, hp]
        rw [hstep]
        refine ih (addresses ++ [current]) chunk.fd (chunks ++ [chunk])
          hsnoc ?_ (hS current chunk hp) ?_
        · intro x hx
          rcases List.mem_append.mp hx with hx | hx
          · exact hsub x hx
          · simp at hx; subst hx; exact hcur
        · simp only [List.length_append, List.length_singleton]
          omega
      | none =>
        simp [parseFromBinEntryAux, hmem, hp]

/-- Top-level characterization of `_parse_from_bin_entry`: the visited
list is the sentinel followed by the attempted addresses, the bin's
chunks are the successful parses of the attempts in order, every attempt
but the last succeeds, a failing last attempt still yields a normally
finished walk, consecutive attempts are linked by the raw `fd`, the
first attempt (if any) is `bin_entry.fd`, and the bin carries the entry
and `safe_link = false`. -/
theorem parseFromBinEntry_spec (parse : Int → Option MallocChunk)
    (pointer_size : Int) (fuel : Nat) (bin_entry : BinEntry) :
    ∃ t : List Int,
      (parseFromBinEntry parse pointer_size fuel bin_entry).addresses
        = (bin_entry.address - pointer_size * 2) :: t ∧
      (parseFromBinEntry parse pointer_size fuel bin_entry).attempts = t ∧
      (parseFromBinEntry parse pointer_size fuel bin_entry).bin.malloc_chunks
        = t.filterMap parse ∧
      (∀ a ∈ t.dropLast, (parse a).isSome = true) ∧
      (∀ a, t.getLast? = some a → parse a = none →
        (parseFromBinEntry parse pointer_size fuel bin_entry).finished
          = true) ∧
      List.Chain' (fun a b => ∃ c, parse a = some c ∧ b = c.fd) t ∧
      (∀ a, t.head? = some a → a = bin_entry.fd) ∧
      (parseFromBinEntry parse pointer_size fuel bin_entry).bin.bin_entry
        = bin_entry ∧
      (parseFromBinEntry parse pointer_size fuel bin_entry).bin.safe_link
        = false := by
  obtain ⟨t, h1, h2, h3, h4, h5, h6⟩ :=
    parseFromBinEntryAux_spec parse fuel
      [bin_entry.address - pointer_size * 2] bin_entry.fd []
  refine ⟨t, ?_, ?_, ?_, h3, ?_, h5, h6, rfl, rfl⟩
  · simpa [parseFromBinEntry, binFactoryCreate] using h1
  · simp only [BinParseResult.attempts, parseFromBinEntry, binFactoryCreate]
    rw [h1]; rfl
  · simpa [parseFromBinEntry, binFactoryCreate] using h2
  · intro a ha hnone
    simpa [parseFromBinEntry, binFactoryCreate] using h4 a ha hnone

/-- The visited list of `_parse_from_bin_entry` has no duplicates. -/
theorem parseFromBinEntry_nodup (parse : Int → Option MallocChunk)
    (pointer_size : Int) (fuel : Nat) (bin_entry : BinEntry) :
    ((parseFromBinEntry parse pointer_size fuel bin_entry).addresses).Nodup := by
  simpa [parseFromBinEntry, binFactoryCreate] using
    parseFromBinEntryAux_nodup parse fuel
      [bin_entry.address - pointer_size * 2] bin_entry.fd []
      (List.nodup_singleton _)

/-! Claim theorems. -/

/-- Claim C1, counterexample: a bin entry at `0xB000` with `fd = 0xC000`
and a memory where the chunk at `0xC000` has `fd` equal to
`bin_entry.address` (not the sentinel).  The walk does not stop at
`bin_entry.address` — that address is not in the visited set `{H,
0xC000}` — so it parses a further chunk there and the bin does not
contain exactly one chunk. -/
theorem C1_counterexample :
    entryC1ce.fd = 0xC000 ∧
    (∃ c, parseC1ce 0xC000 = some c ∧ c.fd = entryC1ce.address) ∧
    (parseFromBinEntry parseC1ce 8 10 entryC1ce).bin.malloc_chunks.length ≠ 1 := by
  refine ⟨rfl, ⟨⟨0xC000, 0x91, 0xB000, 0, 0⟩, by decide, by decide⟩, by decide⟩

/-- Claim C1, amended: when the chunk parsed at `0xC000` has `fd` equal
to the sentinel `H = bin_entry.address - 2P` (and `0xC000` is not itself
the sentinel), the walk stops at the already-visited sentinel after one
chunk: the parsed bin contains exactly the chunk at `0xC000`. -/
theorem C1_one_chunk (parse : Int → Option MallocChunk)
    (pointer_size : Int) (fuel : Nat) (bin_entry : BinEntry) (c : MallocChunk)
    (hfd : bin_entry.fd = 0xC000)
    (hc : parse 0xC000 = some c)
    (hcfd : c.fd = bin_entry.address - pointer_size * 2)
    (hbase : bin_entry.address - pointer_size * 2 ≠ 0xC000)
    (hfuel : 2 ≤ fuel) :
    (parseFromBinEntry parse pointer_size fuel bin_entry).bin.malloc_chunks
      = [c] ∧
    (parseFromBinEntry parse pointer_size fuel bin_entry).attempts
      = [0xC000] ∧
    (parseFromBinEntry parse pointer_size fuel bin_entry).finished = true := by
  obtain ⟨k, rfl⟩ : ∃ k, fuel = k + 1 + 1 := ⟨fuel - 2, by omega⟩
  have hne : ¬((0xC000 : Int) = bin_entry.address - pointer_size * 2) :=
    fun h => hbase h.symm
  simp [parseFromBinEntry, BinParseResult.attempts, binFactoryCreate, hfd,
    parseFromBinEntryAux, hne, hc, hcfd]

/-- Claim C1 (amended) witness: the concrete one-chunk scenario with the
chunk at `0xC000` pointing back at the sentinel `0x1000`. -/
theorem C1_one_chunk_witness :
    (parseFromBinEntry parseC1w 8 10 entryC1w).bin.malloc_chunks
      = [chunkC1w] ∧
    (parseFromBinEntry parseC1w 8 10 entryC1w).attempts = [0xC000] ∧
    (parseFromBinEntry parseC1w 8 10 entryC1w).finished = true :=
  C1_one_chunk parseC1w 8 10 entryC1w chunkC1w (by decide) (by decide)
    (by decide) (by decide) (by omega)

/-- Claim C2: for every bin entry and every memory image whose readable
chunks carry forward pointers from a finite set (machine words), the
walk terminates through its own loop condition once the fuel covers that
set, and the attempted chunk addresses are pairwise distinct — each
address is visited at most once, so the number of chunk-parse attempts
equals (hence is at most) the number of distinct addresses
encountered. -/
theorem C2_walk_terminates (parse : Int → Option MallocChunk)
    (pointer_size : Int) (bin_entry : BinEntry) (F : Finset Int) (fuel : Nat)
    (hF : ∀ a c, parse a = some c → c.fd ∈ F)
    (hfuel : F.card + 2 ≤ fuel) :
    (parseFromBinEntry parse pointer_size fuel bin_entry).finished = true ∧
    ((parseFromBinEntry parse pointer_size fuel bin_entry).attempts).Nodup ∧
    ((parseFromBinEntry parse pointer_size fuel bin_entry).attempts).length
      = ((parseFromBinEntry parse pointer_size fuel bin_entry).attempts).toFinset.card := by
  have hnd := parseFromBinEntry_nodup parse pointer_size fuel bin_entry
  have hattempts : ((parseFromBinEntry parse pointer_size fuel bin_entry).attempts).Nodup := by
    exact hnd.tail
  refine ⟨?_, hattempts, (List.toFinset_card_of_nodup hattempts).symm⟩
  have hS : ∀ a c, parse a = some c →
      c.fd ∈ insert (bin_entry.address - pointer_size * 2)
        (insert bin_entry.fd F) := by
    intro a c h
    exact Finset.mem_insert_of_mem (Finset.mem_insert_of_mem (hF a c h))
  have hcard : (insert (bin_entry.address - pointer_size * 2)
      (insert bin_entry.fd F)).card ≤ F.card + 2 := by
    calc (insert (bin_entry.address - pointer_size * 2)
          (insert bin_entry.fd F)).card
        ≤ (insert bin_entry.fd F).card + 1 := Finset.card_insert_le _ _
      _ ≤ F.card + 1 + 1 := by
          have := Finset.card_insert_le bin_entry.fd F
          omega
  have := parseFromBinEntryAux_finished parse
    (insert (bin_entry.address - pointer_size * 2) (insert bin_entry.fd F))
    hS fuel [bin_entry.address - pointer_size * 2] bin_entry.fd []
    (List.nodup_singleton _)
    (by intro x hx
        rw [List.mem_singleton] at hx
        subst hx
        exact Finset.mem_insert_self _ _)
    (Finset.mem_insert_of_mem (Finset.mem_insert_self _ _))
    (by simp only [List.length_singleton]; omega)
  simpa [parseFromBinEntry, binFactoryCreate] using this

/-- Claim C2 witness: a memory with no readable chunk; the walk attempts
the single address `bin_entry.fd` and stops. -/
theorem C2_walk_terminates_witness :
    (parseFromBinEntry parseNone 8 2 entryC2w).finished = true ∧
    ((parseFromBinEntry parseNone 8 2 entryC2w).attempts).Nodup ∧
    ((parseFromBinEntry parseNone 8 2 entryC2w).attempts).length
      = ((parseFromBinEntry parseNone 8 2 entryC2w).attempts).toFinset.card :=
  C2_walk_terminates parseNone 8 entryC2w ∅ 2
    (fun _ _ h => Option.noConfusion h) (by simp)

/-- Claim C3: when the walk's last attempted address fails to parse (a
read failure), `_parse_from_bin_entry` returns normally and the bin's
chunk list is exactly the successful parses of the earlier attempts —
the prefix, in walk order, with one chunk per earlier attempt. -/
theorem C3_prefix_on_failure (parse : Int → Option MallocChunk)
    (pointer_size : Int) (fuel : Nat) (bin_entry : BinEntry)
    (t : List Int) (a : Int)
    (ht : (parseFromBinEntry parse pointer_size fuel bin_entry).attempts
      = t ++ [a])
    (ha : parse a = none) :
    (parseFromBinEntry parse pointer_size fuel bin_entry).finished = true ∧
    (parseFromBinEntry parse pointer_size fuel bin_entry).bin.malloc_chunks
      = t.filterMap parse ∧
    (∀ x ∈ t, (parse x).isSome = true) ∧
    (parseFromBinEntry parse pointer_size fuel bin_entry).bin.malloc_chunks.length
      = t.length := by
  obtain ⟨t0, h1, h2, h3, h4, h5, h6, h7, h8, h9⟩ :=
    parseFromBinEntry_spec parse pointer_size fuel bin_entry
  have ht0 : t0 = t ++ [a] := h2.symm.trans ht
  subst ht0
  have hsucc : ∀ x ∈ t, (parse x).isSome = true := by
    intro x hx
    exact h4 x (by rw [List.dropLast_concat]; exact hx)
  have hchunks :
      (parseFromBinEntry parse pointer_size fuel bin_entry).bin.malloc_chunks
        = t.filterMap parse := by
    rw [h3, List.filterMap_append]
    simp [List.filterMap_cons, ha]
  refine ⟨h5 a (List.getLast?_concat t) ha, hchunks, hsucc, ?_⟩
  rw [hchunks]
  exact length_filterMap_of_isSome parse t hsucc

/-- Claim C3 witness: one readable chunk at `0x100` whose `fd` points to
the unreadable `0x200`; the returned bin holds exactly the chunk at
`0x100`. -/
theorem C3_prefix_on_failure_witness :
    (parseFromBinEntry parseC3w 8 10 entryC3w).finished = true ∧
    (parseFromBinEntry parseC3w 8 10 entryC3w).bin.malloc_chunks
      = [(0x100 : Int)].filterMap parseC3w ∧
    (∀ x ∈ [(0x100 : Int)], (parseC3w x).isSome = true) ∧
    (parseFromBinEntry parseC3w 8 10 entryC3w).bin.malloc_chunks.length
      = [(0x100 : Int)].length :=
  C3_prefix_on_failure parseC3w 8 10 entryC3w [0x100] 0x200
    (by decide) (by decide)

/-- Claim C4: a bin entry whose `fd` equals the sentinel
`bin_entry.address - 2P` yields a bin with an empty chunk list and no
attempted chunk parse at all. -/
theorem C4_empty_bin (parse : Int → Option MallocChunk)
    (pointer_size : Int) (fuel : Nat) (bin_entry : BinEntry)
    (h : bin_entry.fd = bin_entry.address - pointer_size * 2) :
    (parseFromBinEntry parse pointer_size fuel bin_entry).bin.malloc_chunks
      = [] ∧
    (parseFromBinEntry parse pointer_size fuel bin_entry).attempts = [] := by
  cases fuel with
  | zero =>
    simp [parseFromBinEntry, parseFromBinEntryAux, binFactoryCreate,
      BinParseResult.attempts]
  | succ n =>
    simp [parseFromBinEntry, parseFromBinEntryAux, binFactoryCreate,
      BinParseResult.attempts, h]

/-- Claim C4 witness: entry at `0x1010` with `fd = 0x1000 = address -
2*8`; the unreadable memory is never consulted. -/
theorem C4_empty_bin_witness :
    (parseFromBinEntry parseNone 8 3 entryC4w).bin.malloc_chunks = [] ∧
    (parseFromBinEntry parseNone 8 3 entryC4w).attempts = [] :=
  C4_empty_bin parseNone 8 3 entryC4w (by decide)

/-- Claim C5, counterexample: on a 64-bit process with libc 2.31 the
code enables tcaches exactly at first-chunk size `pointer_size * 64 +
0x50 = 0x250`, not at the claim's `2P * 64 + 0x50 = 0x450`: the size
`0x450` yields disabled and the size `0x250 ≠ 0x450` yields enabled. -/
theorem C5_counterexample :
    are_tcaches_enabled (2, 31) 8 (2 * 8 * 64 + 0x50) = false ∧
    are_tcaches_enabled (2, 31) 8 (8 * 64 + 0x50) = true ∧
    ((8 : Int) * 64 + 0x50) ≠ 2 * 8 * 64 + 0x50 := by decide

/-- Claim C5, amended: for every process whose libc version is at least
2.26, `tcaches_enabled` is true if and only if the first chunk of the
main heap has size `pointer_size * 64 + 0x50`; any other size yields
false. -/
theorem C5_tcache_detection (version : Nat × Nat)
    (pointer_size first_chunk_size : Int)
    (h : is_libc_version_lower_than version (2, 26) = false) :
    are_tcaches_enabled version pointer_size first_chunk_size = true ↔
      pointer_size * 64 + 0x50 = first_chunk_size := by
  simp [are_tcaches_enabled, h]

/-- Claim C5 (amended) witness: libc 2.31, 64-bit, first-chunk size
`0x250`. -/
theorem C5_tcache_detection_witness :
    are_tcaches_enabled (2, 31) 8 0x250 = true ↔
      (8 : Int) * 64 + 0x50 = 0x250 :=
  C5_tcache_detection (2, 31) 8 0x250 (by decide)

/-- Claim C6: `tcaches` and `all_arenas_tcaches` yield `NoTcacheError`
exactly when `tcaches_enabled` is false; in that case no tcache read is
performed before the raise; and a libc version lower than 2.26 always
yields `tcaches_enabled = false`. -/
theorem C6_no_tcache_error :
    (∀ (α : Type) (enabled : Bool) (p : Nat → α × List Int) (i : Nat),
      ((tcaches α enabled p i).1 = TcachesOutcome.noTcacheError ↔
        enabled = false)) ∧
    (∀ (α : Type) (enabled : Bool) (p : Unit → α × List Int),
      ((all_arenas_tcaches α enabled p).1 = TcachesOutcome.noTcacheError ↔
        enabled = false)) ∧
    (∀ (α : Type) (p : Nat → α × List Int) (i : Nat),
      (tcaches α false p i).2 = []) ∧
    (∀ (α : Type) (p : Unit → α × List Int),
      (all_arenas_tcaches α false p).2 = []) ∧
    (∀ (version : Nat × Nat) (pointer_size first_chunk_size : Int),
      is_libc_version_lower_than version (2, 26) = true →
      are_tcaches_enabled version pointer_size first_chunk_size = false) := by
  refine ⟨?_, ?_, ?_, ?_, ?_⟩
  · intro α enabled p i; cases enabled <;> simp [tcaches]
  · intro α enabled p; cases enabled <;> simp [all_arenas_tcaches]
  · intro α p i; simp [tcaches]
  · intro α p; simp [all_arenas_tcaches]
  · intro v ps s h; simp [are_tcaches_enabled, h]

/-- Claim C6 witness: with tcaches disabled the call raises and reads
nothing; libc 2.25 disables tcaches at any first-chunk size. -/
theorem C6_no_tcache_error_witness :
    (tcaches Nat false (fun _ => (0, [7])) 0).1
      = TcachesOutcome.noTcacheError ∧
    (tcaches Nat false (fun _ => (0, [7])) 0).2 = [] ∧
    are_tcaches_enabled (2, 25) 8 0x250 = false :=
  ⟨(C6_no_tcache_error.1 Nat false (fun _ => (0, [7])) 0).mpr rfl,
    C6_no_tcache_error.2.2.1 Nat (fun _ => (0, [7])) 0,
    C6_no_tcache_error.2.2.2.2 (2, 25) 8 0x250 (by decide)⟩

/-- Claim C7: for every memory image, consecutive attempted addresses of
the doubly-linked bin walk are linked by the raw `fd` pointer of the
parsed chunk — never a demangled value — and the resulting bin carries
`safe_link = false`. -/
theorem C7_raw_fd_walk (parse : Int → Option MallocChunk)
    (pointer_size : Int) (fuel : Nat) (bin_entry : BinEntry) :
    List.Chain' (fun a b => ∃ c, parse a = some c ∧ b = c.fd)
      ((parseFromBinEntry parse pointer_size fuel bin_entry).attempts) ∧
    (parseFromBinEntry parse pointer_size fuel bin_entry).bin.safe_link
      = false := by
  obtain ⟨t, h1, h2, h3, h4, h5, h6, h7, h8, h9⟩ :=
    parseFromBinEntry_spec parse pointer_size fuel bin_entry
  refine ⟨?_, h9⟩
  rw [h2]
  exact h6

/-- Claim C8: `arenas_count` is the length of the list returned by
`all_arenas_malloc_states`; a two-arena ring (`main.next = A1`,
`A1.next = main`) counts 2 with two distinct state addresses, and a
self-ring (`main.next == main`) counts 1. -/
theorem C8_arena_ring_count :
    (∀ (readNext : Int → Int) (fuel : Nat) (main_arena_address : Int),
      arenas_count readNext fuel main_arena_address
        = (all_arenas_malloc_states readNext fuel main_arena_address).length) ∧
    arenas_count ringTwo 5 0x10 = 2 ∧
    (all_arenas_malloc_states ringTwo 5 0x10).map MallocState.address
      = [0x10, 0x20] ∧
    arenas_count ringOne 5 0x30 = 1 :=
  ⟨fun _ _ _ => rfl, by decide, by decide, by decide⟩

/-- Claim C9: the addresses at which the bin walk successfully parsed a
chunk are pairwise distinct, and none of them is the sentinel
`bin_entry.address - 2P`. -/
theorem C9_chunk_addresses_distinct (parse : Int → Option MallocChunk)
    (pointer_size : Int) (fuel : Nat) (bin_entry : BinEntry) :
    (((parseFromBinEntry parse pointer_size fuel bin_entry).attempts).filter
      (fun a => (parse a).isSome)).Nodup ∧
    (bin_entry.address - pointer_size * 2) ∉
      ((parseFromBinEntry parse pointer_size fuel bin_entry).attempts).filter
        (fun a => (parse a).isSome) := by
  obtain ⟨t, h1, h2, h3, h4, h5, h6, h7, h8, h9⟩ :=
    parseFromBinEntry_spec parse pointer_size fuel bin_entry
  have hnd := parseFromBinEntry_nodup parse pointer_size fuel bin_entry
  rw [h1, List.nodup_cons] at hnd
  rw [h2]
  exact ⟨hnd.2.filter _, fun hmem => hnd.1 (List.mem_of_mem_filter hmem)⟩

/-- Claim C10, counterexample: on a self-ring with one arena, the
negative index `-2` does not select from the end — it fails with an
index error, refuting "a negative arena_index selects from the end
rather than failing". -/
theorem C10_counterexample :
    arenas_count ringOne 5 0x30 = 1 ∧
    (-2 : Int) < 0 ∧
    malloc_state ringOne 5 0x30 (-2) = none := by decide

/-- Claim C10, amended: `malloc_state` indexes the list returned by
`all_arenas_malloc_states` with Python semantics: a non-negative index
selects that position and fails with an index error from
`arenas_count()` upward; a negative index with magnitude at most
`arenas_count()` selects from the end (`-1` is the last arena in ring
order); a negative index with larger magnitude also fails with an index
error. -/
theorem C10_python_indexing (readNext : Int → Int) (fuel : Nat)
    (main_arena_address : Int) (arena_index : Int) :
    (0 ≤ arena_index →
      malloc_state readNext fuel main_arena_address arena_index
        = (all_arenas_malloc_states readNext fuel main_arena_address).get?
            arena_index.toNat) ∧
    ((arenas_count readNext fuel main_arena_address : Int) ≤ arena_index →
      malloc_state readNext fuel main_arena_address arena_index = none) ∧
    (arena_index < 0 →
      arena_index.natAbs ≤ arenas_count readNext fuel main_arena_address →
      malloc_state readNext fuel main_arena_address arena_index
        = (all_arenas_malloc_states readNext fuel main_arena_address).get?
            (arenas_count readNext fuel main_arena_address
              - arena_index.natAbs)) ∧
    (arena_index < 0 →
      arenas_count readNext fuel main_arena_address < arena_index.natAbs →
      malloc_state readNext fuel main_arena_address arena_index = none) ∧
    (malloc_state readNext fuel main_arena_address (-1)
      = (all_arenas_malloc_states readNext fuel main_arena_address).getLast?) := by
  refine ⟨?_, ?_, ?_, ?_, ?_⟩
  · intro h
    simp [malloc_state, pyListGet, h]
  · intro h
    have h0 : 0 ≤ arena_index := by
      have : (0 : Int) ≤ (arenas_count readNext fuel main_arena_address : Int) :=
        Int.ofNat_nonneg _
      omega
    simp [malloc_state, pyListGet, h0]
    exact h
  · intro hneg hle
    have h0 : ¬(0 ≤ arena_index) := by omega
    simp only [arenas_count] at hle
    simp [malloc_state, pyListGet, h0, hle, arenas_count]
  · intro hneg hgt
    have h0 : ¬(0 ≤ arena_index) := by omega
    have hle : ¬(arena_index.natAbs
        ≤ (all_arenas_malloc_states readNext fuel main_arena_address).length) := by
      simp only [arenas_count] at hgt
      omega
    simp [malloc_state, pyListGet, h0, hle]
  · have h0 : ¬((0 : Int) ≤ -1) := by omega
    rcases heq : all_arenas_malloc_states readNext fuel main_arena_address with _ | ⟨s, l⟩
    · simp [malloc_state, pyListGet, h0, heq]
    · have hle : (Int.natAbs (-1)) ≤ (s :: l).length := by
        simp
      rw [malloc_state, heq]
      simp only [pyListGet, h0, if_false, hle, if_true]
      rw [List.getLast?_eq_getElem?, List.get?_eq_getElem?]
      simp

/-- Claim C10 (amended) witness: on the two-arena ring, `-1` selects the
last arena. -/
theorem C10_python_indexing_witness :
    malloc_state ringTwo 5 0x10 (-1)
      = (all_arenas_malloc_states ringTwo 5 0x10).get?
          (arenas_count ringTwo 5 0x10 - Int.natAbs (-1)) :=
  (C10_python_indexing ringTwo 5 0x10 (-1)).2.2.1 (by decide) (by decide)
